import Mathlib

/-!
Verification development for the three-stage demo pipeline:
a feature producer (`features.py`), a metric correlator (`metric.py`)
and an error visualizer (`plot.py`).

The Python code is shallowly embedded: JSON values become an inductive
type `JVal`, the global dict `data` of `metric.py` becomes an explicit
association list threaded through the handler, Python exceptions become
an explicit `Except`-style result, and Python numbers are modelled as
exact rationals (`ℚ`) with an `isFloat` tag distinguishing ints from
floats for formatting purposes.
-/

set_option autoImplicit false

namespace MlDz

/-- Parsed JSON values as produced by `json.loads`.  A number carries the
rational it denotes and whether it is a Python `float` (JSON literal with a
fraction/exponent) or a Python `int`.  `null` doubles as Python `None`,
which is also what `dict.get` returns for an absent key. -/
inductive JVal where
  | null
  | bool (b : Bool)
  | num (q : ℚ) (isFloat : Bool)
  | str (s : String)
  | arr (xs : List JVal)
  | obj (fields : List (String × JVal))

/-- Python truthiness (`bool(x)`) of a value decoded from JSON. -/
def truthy : JVal → Bool
  | .null => false
  | .bool b => b
  | .num q _ => q != 0
  | .str s => s != ""
  | .arr xs => !xs.isEmpty
  | .obj fs => !fs.isEmpty

/-- Whether the value may be used as a Python dict key (lists and dicts are
unhashable; `data[message_id]` raises `TypeError` on them). -/
def hashable : JVal → Bool
  | .arr _ => false
  | .obj _ => false
  | _ => true

/-- Python `==` on hashable JSON-decoded values, as used by dict key lookup:
`1 == 1.0 == True`, strings compare by content.  Unhashable values never
reach a dict, so the catch-all returns `false`. -/
def pyKeyEq : JVal → JVal → Bool
  | .null, .null => true
  | .bool a, .bool b => a == b
  | .bool a, .num q _ => (if a then (1 : ℚ) else 0) == q
  | .num q _, .bool b => q == (if b then (1 : ℚ) else 0)
  | .num a _, .num b _ => a == b
  | .str a, .str b => a == b
  | _, _ => false

/-- Test for Python `None` (`value is None`). -/
def isNull : JVal → Bool
  | .null => true
  | _ => false

/-- Python `message.get(k)`: the value stored under `k`, or `None` when the
key is absent (a key stored with JSON `null` is indistinguishable). -/
def dictGet (m : List (String × JVal)) (k : String) : JVal :=
  match m.find? (fun p => p.1 == k) with
  | some p => p.2
  | none => .null

/-- Line 31 of `metric.py`: `value = message.get('body') or
message.get('prediction')`.  Python `or` returns the left operand when it
is truthy, otherwise the right operand. -/
def extractValue (m : List (String × JVal)) : JVal :=
  let b := dictGet m "body"
  if truthy b then b else dictGet m "prediction"

/-- Python numeric coercion used by `-`: ints/floats subtract, `bool` acts
as `0`/`1`; everything else makes `-` raise `TypeError`. -/
def asNum : JVal → Option (ℚ × Bool)
  | .num q f => some (q, f)
  | .bool b => some ((if b then 1 else 0), false)
  | _ => none

/-- Python `a - b` on JSON-decoded values: `some (difference, isFloat)`
when the operands are numeric, `none` when the subtraction raises
`TypeError`. -/
def pySub (a b : JVal) : Option (ℚ × Bool) :=
  match asNum a, asNum b with
  | some (x, fx), some (y, fy) => some (x - y, fx || fy)
  | _, _ => none

/-- One pending entry of the correlator: the inner dict
`{'y_true': ..., 'y_pred': ...}` stored under a message id. -/
structure Entry where
  y_true : Option JVal := none
  y_pred : Option JVal := none

/-- The global dict `data` of `metric.py`, as an insertion-ordered
association list keyed by Python equality `pyKeyEq`. -/
abbrev DataState := List (JVal × Entry)

/-- Dict lookup `data.get(k)` / `data[k]`: first entry whose stored key is
Python-equal to `k`. -/
def dlookup : DataState → JVal → Option Entry
  | [], _ => none
  | (k1, e) :: t, k => if pyKeyEq k1 k then some e else dlookup t k

/-- Dict store `data[k] = e`: replace the value at the first Python-equal
key, or append a fresh entry. -/
def dinsert : DataState → JVal → Entry → DataState
  | [], k, e => [(k, e)]
  | (k1, e1) :: t, k, e =>
    if pyKeyEq k1 k then (k1, e) :: t else (k1, e1) :: dinsert t k e

/-- Dict delete `del data[k]`: drop the first Python-equal key. -/
def dremove : DataState → JVal → DataState
  | [], _ => []
  | (k1, e1) :: t, k => if pyKeyEq k1 k then t else (k1, e1) :: dremove t k

/-- Python exceptions that the embedded code can raise.  All of them are
subclasses of `Exception`, which is what `isExceptionInstance` records. -/
inductive PyError where
  | jsonDecodeError
  | attributeError
  | keyError
  | typeError
  | emptyDataError

/-- Every modelled error is an instance of Python's `Exception` class (none
of them derives only from `BaseException`). -/
def isExceptionInstance : PyError → Bool := fun _ => true

/-- Membership test for the first handler clause
`except json.JSONDecodeError`. -/
def isJSONDecodeError : PyError → Bool
  | .jsonDecodeError => true
  | _ => false

/-- Outcome of `json.loads(body)` followed by attribute access: the raw
bytes either fail to decode (`malformed`), decode to a non-dict on which
`.get` raises `AttributeError` (`notObj`), or decode to a dict. -/
inductive ParseResult where
  | malformed
  | notObj
  | obj (fields : List (String × JVal))

/-- Decimal digit rendered as a character (`0 ↦ '0'`, ..., `9 ↦ '9'`). -/
def digitChar (k : ℕ) : Char :=
  Char.ofNat (48 + min k 9)

/-- Inverse of `digitChar`: the digit a character denotes, if any. -/
def charDigit (c : Char) : Option ℕ :=
  if 48 ≤ c.toNat ∧ c.toNat ≤ 57 then some (c.toNat - 48) else none

/-- Most-significant-first decimal digits of `n`, with explicit fuel
(`fuel ≥ n` always suffices); empty for `n = 0`. -/
def natDigitsAux : ℕ → ℕ → List ℕ
  | 0, _ => []
  | fuel + 1, n => if n = 0 then [] else natDigitsAux fuel (n / 10) ++ [n % 10]

/-- Decimal digits of `n`, `[0]` for zero. -/
def natDigits (n : ℕ) : List ℕ :=
  if n = 0 then [0] else natDigitsAux n n

/-- Value of a most-significant-first digit list. -/
def fromDigits (l : List ℕ) : ℕ :=
  l.foldl (fun a d => a * 10 + d) 0

/-- Digits after the decimal point of the fraction `n / d` (`n < d`),
produced by repeated multiply-by-ten, stopping at remainder zero or when
the fuel runs out. -/
def fracDigits : ℕ → ℕ → ℕ → List ℕ
  | 0, _, _ => []
  | fuel + 1, n, d => if n = 0 then [] else n * 10 / d :: fracDigits fuel (n * 10 % d) d

/-- Remainder left after `fracDigits` with the same fuel. -/
def fracRem : ℕ → ℕ → ℕ → ℕ
  | 0, n, _ => n
  | fuel + 1, n, d => if n = 0 then 0 else fracRem fuel (n * 10 % d) d

/-- Characters of the decimal rendering of `n`. -/
def natChars (n : ℕ) : List Char :=
  (natDigits n).map digitChar

/-- Rendering of a Python float with exact value `q`, as produced by
`str()` in the f-string of `log_error_to_csv`: optional minus sign,
integer part, a dot, and the fraction digits (or `0`).  Up to 17
significant fraction digits are produced, matching the precision of
`repr` on doubles; scientific notation for extreme magnitudes is not
modelled. -/
def floatReprChars (q : ℚ) : List Char :=
  let n := q.num.natAbs
  let d := q.den
  let ds := fracDigits 17 (n % d) d
  (if q < 0 then ['-'] else []) ++ natChars (n / d) ++
    '.' :: (if ds.isEmpty then ['0'] else ds.map digitChar)

/-- Rendering of a Python int with value `q` (`q.den = 1` whenever the
value really came from a JSON integer). -/
def intReprChars (q : ℚ) : List Char :=
  (if q < 0 then ['-'] else []) ++ natChars q.num.natAbs

/-- Rendering of a Python number: float or int formatting according to the
tag carried by the value. -/
def pyNumReprChars (q : ℚ) (isFloat : Bool) : List Char :=
  if isFloat then floatReprChars q else intReprChars q

/-- Python `str()` of a JSON-decoded value, as interpolated by the
f-string in `log_error_to_csv`.  Lists and dicts never reach a log row:
unhashable ids are rejected before any entry is stored and non-numeric
halves make the subtraction raise before the write, so their rendering is
a placeholder. -/
def pyStrChars : JVal → List Char
  | .null => "None".data
  | .bool b => if b then "True".data else "False".data
  | .num q f => pyNumReprChars q f
  | .str s => s.data
  | .arr _ => "<list>".data
  | .obj _ => "<dict>".data

/-- Line 16 of `metric.py`: the characters written by
`f"{message_id},{y_true},{y_pred},{error}\n"`, without the final
newline. -/
def rowChars (mid yt yp err : JVal) : List Char :=
  pyStrChars mid ++ ',' :: (pyStrChars yt ++ ',' :: (pyStrChars yp ++ ',' :: pyStrChars err))

/-- The function `log_error_to_csv` of `metric.py`: append one CSV row to
the log file.  `writeOk` stands for the success of the `open`/`write`
call; on failure the internal `try`/`except` swallows the exception, so
the function never raises and simply appends nothing. -/
def log_error_to_csv (writeOk : Bool) (mid yt yp err : JVal) : Option (List Char) :=
  if writeOk then some (rowChars mid yt yp err) else none

/-- Lines 46-51 of `metric.py`: the completion check executed after the
routing-key branches.  `if 'y_true' in data[message_id] and 'y_pred' in
data[message_id]` raises `TypeError` on an unhashable id and `KeyError`
when the id is absent; when both halves are present the error is
computed (raising `TypeError` on non-numeric halves *before* the entry is
deleted), logged, and the entry removed. -/
def checkComplete (writeOk : Bool) (mid : JVal) (data : DataState) :
    Except (PyError × DataState) (DataState × Option (List Char)) :=
  if hashable mid then
    match dlookup data mid with
    | none => .error (.keyError, data)
    | some e =>
      match e.y_true, e.y_pred with
      | some yt, some yp =>
        match pySub yt yp with
        | none => .error (.typeError, data)
        | some (q, f) =>
          .ok (dremove data mid, log_error_to_csv writeOk mid yt yp (.num |q| f))
      | _, _ => .ok (data, none)
  else .error (.typeError, data)

/-- The `try` block of `process_message` (lines 23-51 of `metric.py`).
The result is either a normal return carrying the new dict state and the
row appended to the CSV log, or a raised exception together with the dict
state at the moment of the raise (mutations made before the raise
persist). -/
def processCore (routingKey : String) (parsed : ParseResult) (writeOk : Bool)
    (data : DataState) :
    Except (PyError × DataState) (DataState × Option (List Char)) :=
  match parsed with
  | .malformed => .error (.jsonDecodeError, data)
  | .notObj => .error (.attributeError, data)
  | .obj m =>
    let mid := dictGet m "id"
    if !truthy mid then .ok (data, none)
    else
      let value := extractValue m
      if isNull value then .ok (data, none)
      else if routingKey == "y_true" then
        if hashable mid then
          checkComplete writeOk mid
            (dinsert data mid { (dlookup data mid).getD {} with y_true := some value })
        else .error (.typeError, data)
      else if routingKey == "y_pred" then
        if hashable mid then
          checkComplete writeOk mid
            (dinsert data mid { (dlookup data mid).getD {} with y_pred := some value })
        else .error (.typeError, data)
      else checkComplete writeOk mid data

/-- The two `except` clauses of `process_message`: the first catches
`json.JSONDecodeError`, the second every `Exception`. -/
def handlerCatches (e : PyError) : Bool :=
  isJSONDecodeError e || isExceptionInstance e

/-- The handler `process_message` of `metric.py`.  Its input message body
is represented by its `json.loads` outcome (`parsed`); the result is the
new dict state, the CSV row appended (if any), and the exception
propagated to the caller — `none` when the handler returns normally. -/
def process_message (routingKey : String) (parsed : ParseResult) (writeOk : Bool)
    (data : DataState) :
    DataState × Option (List Char) × Option PyError :=
  match processCore routingKey parsed writeOk data with
  | .ok (d, row) => (d, row, none)
  | .error (e, d) => if handlerCatches e then (d, none, none) else (d, none, some e)

/-- Split a character list at every occurrence of `c` (the separator is
dropped; `n` separators produce `n + 1` pieces). -/
def splitOnCharFn (c : Char) : List Char → List (List Char)
  | [] => [[]]
  | a :: t =>
    let r := splitOnCharFn c t
    if a == c then [] :: r
    else
      match r with
      | [] => [[a]]
      | h :: t2 => (a :: h) :: t2

/-- Digits denoted by a character list, `none` if any character is not a
decimal digit. -/
def charsDigits : List Char → Option (List ℕ)
  | [] => some []
  | c :: t =>
    match charDigit c, charsDigits t with
    | some d, some ds => some (d :: ds)
    | _, _ => none

/-- Parse a non-empty all-digit character list as a natural number. -/
def parseNatChars (l : List Char) : Option ℕ :=
  if l.isEmpty then none else (charsDigits l).map fromDigits

/-- Parse an unsigned decimal literal (`123` or `123.456`), the way the
float parser behind `pandas.read_csv` interprets a numeric CSV field. -/
def parseUnsigned (l : List Char) : Option ℚ :=
  match splitOnCharFn '.' l with
  | [ip] => (parseNatChars ip).map (fun n => (n : ℚ))
  | [ip, fp] =>
    match parseNatChars ip, parseNatChars fp with
    | some a, some b => some ((a : ℚ) + (b : ℚ) / 10 ^ fp.length)
    | _, _ => none
  | _ => none

/-- Parse a signed decimal CSV field as a rational. -/
def parseDecChars (l : List Char) : Option ℚ :=
  match l with
  | [] => none
  | c :: rest => if c == '-' then (parseUnsigned rest).map (fun q => -q) else parseUnsigned l

/-- Model of `pandas.read_csv(..., header=None)` on the raw file content:
split into newline-terminated lines, drop empty lines, split each line on
commas.  An empty file (no rows at all) raises `EmptyDataError`. -/
def pandasReadCsv (content : List Char) :
    Except PyError (List (List (List Char))) :=
  let rows := (splitOnCharFn '\n' content).filter (fun l => !l.isEmpty)
  if rows.isEmpty then .error .emptyDataError
  else .ok (rows.map (splitOnCharFn ','))

/-- One iteration of the `while True` loop of `plot.py`: read the log,
extract column 3 (`df.iloc[:, 3]`) as the absolute-error series used for
plotting.  The `except Exception` clause catches every failure, so the
second component — the exception escaping the iteration — records what
would crash the loop. -/
def plotTick (content : List Char) : Option (List (Option ℚ)) × Option PyError :=
  match pandasReadCsv content with
  | .ok rows => (some (rows.map (fun r => parseDecChars (r.getD 3 []))), none)
  | .error e => if isExceptionInstance e then (none, none) else (none, some e)

/-- One published queue message of `features.py`: routing key, durability
flag (`delivery_mode=2`), and the JSON object serialized into the body. -/
structure PubMsg where
  routing_key : String
  durable : Bool
  message : JVal

/-- One iteration of the producer loop of `features.py` (lines 21-58).
`X` and `y` are the rows and targets of the loaded dataset, `mid` the
timestamp-derived message id (a Python float), and `r` the value drawn by
`np.random.randint(0, X.shape[0])`, which is uniform on the row indices;
the iteration is deterministic in the draw. -/
def producerTick (X : List (List ℚ)) (y : List ℚ) (mid : ℚ) (r : ℕ) : List PubMsg :=
  let message_y_true : JVal := .obj [("id", .num mid true), ("body", .num (y.getD r 0) true)]
  let message_features : JVal :=
    .obj [("id", .num mid true), ("body", .arr ((X.getD r []).map (fun q => .num q true)))]
  [ { routing_key := "y_true", durable := true, message := message_y_true },
    { routing_key := "features", durable := true, message := message_features } ]

/-- Line 7 of `metric.py`: the directory the correlator logs into. -/
def log_dir : String := "D:/lab/logs/logs"

/-- The CSV path the correlator appends to:
`os.path.join(log_dir, "metric_log.csv")`, for a platform whose path
separator is `sep` (`'/'` on posix, `'\\'` on Windows); `os.path.join`
inserts the separator only when the left part does not already end with
it. -/
def metricCsvPath (sep : Char) : String :=
  if log_dir.endsWith (String.singleton sep) then log_dir ++ "metric_log.csv"
  else log_dir ++ String.singleton sep ++ "metric_log.csv"

/-- Line 9 of `plot.py`: the CSV path the visualizer reads. -/
def plotCsvPath : String := "D:/lab/logs/metric_log.csv"

/-! ### Lemmas about digits and decimal rendering -/

theorem digitChar_is_digit (k : ℕ) :
    digitChar k ∈ ['0', '1', '2', '3', '4', '5', '6', '7', '8', '9'] := by
  unfold digitChar
  set j := min k 9 with hj
  have h : j < 10 := lt_of_le_of_lt (min_le_right _ _) (by norm_num)
  interval_cases j <;> decide

theorem digitChar_ne_of_not_digit {c : Char}
    (hc : c ∉ ['0', '1', '2', '3', '4', '5', '6', '7', '8', '9']) (k : ℕ) :
    digitChar k ≠ c := by
  intro h
  exact hc (h ▸ digitChar_is_digit k)

theorem charDigit_digitChar {k : ℕ} (h : k < 10) : charDigit (digitChar k) = some k := by
  interval_cases k <;> decide

theorem fromDigits_append_digit (l : List ℕ) (d : ℕ) :
    fromDigits (l ++ [d]) = fromDigits l * 10 + d := by
  simp [fromDigits, List.foldl_append]

theorem fromDigits_seed (l : List ℕ) :
    ∀ a : ℕ, l.foldl (fun x k => x * 10 + k) a = a * 10 ^ l.length + fromDigits l := by
  induction l with
  | nil => intro a; simp [fromDigits]
  | cons d t ih =>
    intro a
    simp only [List.foldl_cons, List.length_cons, fromDigits]
    rw [ih (a * 10 + d), ih (0 * 10 + d)]
    ring

theorem fromDigits_cons (d : ℕ) (l : List ℕ) :
    fromDigits (d :: l) = d * 10 ^ l.length + fromDigits l := by
  have h1 : fromDigits (d :: l) = l.foldl (fun x k => x * 10 + k) d := by
    simp [fromDigits]
  rw [h1, fromDigits_seed l d]

theorem natDigitsAux_fromDigits : ∀ fuel n : ℕ, n ≤ fuel →
    fromDigits (natDigitsAux fuel n) = n := by
  intro fuel
  induction fuel with
  | zero =>
    intro n hn
    simp only [Nat.le_zero] at hn
    subst hn
    simp [natDigitsAux, fromDigits]
  | succ fuel ih =>
    intro n hn
    by_cases h0 : n = 0
    · subst h0; simp [natDigitsAux, fromDigits]
    · have hlt : n / 10 < n := Nat.div_lt_self (Nat.pos_of_ne_zero h0) (by norm_num)
      have hle : n / 10 ≤ fuel := Nat.le_of_lt_succ (lt_of_lt_of_le hlt hn)
      simp only [natDigitsAux, h0, if_false]
      rw [fromDigits_append_digit, ih _ hle]
      omega

theorem fromDigits_natDigits (n : ℕ) : fromDigits (natDigits n) = n := by
  by_cases h0 : n = 0
  · subst h0; simp [natDigits, fromDigits]
  · simp only [natDigits, h0, if_false]
    exact natDigitsAux_fromDigits n n le_rfl

theorem natDigitsAux_lt_ten : ∀ fuel n : ℕ, ∀ d ∈ natDigitsAux fuel n, d < 10 := by
  intro fuel
  induction fuel with
  | zero => intro n d hd; simp [natDigitsAux] at hd
  | succ fuel ih =>
    intro n d hd
    by_cases h0 : n = 0
    · subst h0; simp [natDigitsAux] at hd
    · simp only [natDigitsAux, h0, if_false, List.mem_append, List.mem_singleton] at hd
      rcases hd with hd | hd
      · exact ih _ _ hd
      · subst hd; exact Nat.mod_lt _ (by norm_num)

theorem natDigits_lt_ten (n : ℕ) : ∀ d ∈ natDigits n, d < 10 := by
  intro d hd
  by_cases h0 : n = 0
  · subst h0; simp [natDigits] at hd; omega
  · simp only [natDigits, h0, if_false] at hd
    exact natDigitsAux_lt_ten _ _ _ hd

theorem natDigits_ne_nil (n : ℕ) : natDigits n ≠ [] := by
  by_cases h0 : n = 0
  · subst h0; simp [natDigits]
  · simp only [natDigits, h0, if_false]
    rcases n with _ | m
    · exact absurd rfl h0
    · simp [natDigitsAux, h0]

theorem fracDigits_lt_ten : ∀ (fuel n d : ℕ), n < d → ∀ k ∈ fracDigits fuel n d, k < 10 := by
  intro fuel
  induction fuel with
  | zero => intro n d _ k hk; simp [fracDigits] at hk
  | succ fuel ih =>
    intro n d hnd k hk
    have hd : 0 < d := lt_of_le_of_lt (Nat.zero_le _) hnd
    by_cases h0 : n = 0
    · subst h0; simp [fracDigits] at hk
    · simp only [fracDigits, h0, if_false, List.mem_cons] at hk
      rcases hk with hk | hk
      · subst hk
        have hlt : n * 10 < d * 10 := by omega
        exact Nat.div_lt_of_lt_mul hlt
      · exact ih _ _ (Nat.mod_lt _ hd) _ hk

theorem fracDigits_spec : ∀ (fuel n d : ℕ), 0 < d → n < d →
    n * 10 ^ (fracDigits fuel n d).length =
      fromDigits (fracDigits fuel n d) * d + fracRem fuel n d := by
  intro fuel
  induction fuel with
  | zero => intro n d _ _; simp [fracDigits, fracRem, fromDigits]
  | succ fuel ih =>
    intro n d hd hnd
    by_cases h0 : n = 0
    · subst h0; simp [fracDigits, fracRem, fromDigits]
    · simp only [fracDigits, fracRem, h0, if_false, List.length_cons]
      rw [fromDigits_cons]
      have ihx := ih (n * 10 % d) d hd (Nat.mod_lt _ hd)
      have hdm : n * 10 / d * d + n * 10 % d = n * 10 := by
        have h := Nat.div_add_mod (n * 10) d
        rw [Nat.mul_comm] at h
        exact h
      calc n * 10 ^ ((fracDigits fuel (n * 10 % d) d).length + 1)
          = (n * 10) * 10 ^ (fracDigits fuel (n * 10 % d) d).length := by ring
        _ = (n * 10 / d * d + n * 10 % d) * 10 ^ (fracDigits fuel (n * 10 % d) d).length := by
            rw [hdm]
        _ = n * 10 / d * d * 10 ^ (fracDigits fuel (n * 10 % d) d).length +
              (n * 10 % d) * 10 ^ (fracDigits fuel (n * 10 % d) d).length := by ring
        _ = n * 10 / d * d * 10 ^ (fracDigits fuel (n * 10 % d) d).length +
              (fromDigits (fracDigits fuel (n * 10 % d) d) * d + fracRem fuel (n * 10 % d) d) := by
            rw [ihx]
        _ = (n * 10 / d * 10 ^ (fracDigits fuel (n * 10 % d) d).length +
              fromDigits (fracDigits fuel (n * 10 % d) d)) * d + fracRem fuel (n * 10 % d) d := by
            ring

theorem fracRem_eq_zero : ∀ (fuel n d : ℕ), 0 < d → n < d → d ∣ n * 10 ^ fuel →
    fracRem fuel n d = 0 := by
  intro fuel
  induction fuel with
  | zero =>
    intro n d hd hnd hdvd
    simp only [pow_zero, mul_one] at hdvd
    rcases Nat.eq_zero_or_pos n with h0 | hpos
    · simpa [fracRem] using h0
    · exact absurd hnd (not_lt.mpr (Nat.le_of_dvd hpos hdvd))
  | succ fuel ih =>
    intro n d hd hnd hdvd
    by_cases h0 : n = 0
    · subst h0; simp [fracRem]
    · simp only [fracRem, h0, if_false]
      apply ih _ _ hd (Nat.mod_lt _ hd)
      have h1 : d ∣ (n * 10) * 10 ^ fuel := by
        have hx : n * 10 ^ (fuel + 1) = (n * 10) * 10 ^ fuel := by ring
        rwa [hx] at hdvd
      have h2 : (n * 10) % d * 10 ^ fuel % d = (n * 10) * 10 ^ fuel % d := by
        rw [Nat.mod_mul_mod]
      have h3 : (n * 10) * 10 ^ fuel % d = 0 := Nat.dvd_iff_mod_eq_zero.mp h1
      exact Nat.dvd_of_mod_eq_zero (by rw [h2, h3])

theorem fracDigits_nil {fuel n d : ℕ} (h : fracDigits (fuel + 1) n d = []) : n = 0 := by
  by_contra h0
  simp [fracDigits, h0] at h

/-! ### Lemmas about the CSV field parser -/

theorem charsDigits_map_digitChar (l : List ℕ) (h : ∀ k ∈ l, k < 10) :
    charsDigits (l.map digitChar) = some l := by
  induction l with
  | nil => simp [charsDigits]
  | cons d t ih =>
    have hd : d < 10 := h d (List.mem_cons_self d t)
    have ht := ih (fun k hk => h k (List.mem_cons_of_mem d hk))
    simp only [List.map_cons, charsDigits, charDigit_digitChar hd, ht]

theorem parseNatChars_map_digitChar (l : List ℕ) (hne : l ≠ []) (h : ∀ k ∈ l, k < 10) :
    parseNatChars (l.map digitChar) = some (fromDigits l) := by
  have hne2 : (l.map digitChar).isEmpty = false := by
    rcases l with _ | ⟨d, t⟩
    · exact absurd rfl hne
    · rfl
  simp [parseNatChars, hne2, charsDigits_map_digitChar l h]

theorem parseNatChars_natChars (n : ℕ) : parseNatChars (natChars n) = some n := by
  unfold natChars
  rw [parseNatChars_map_digitChar _ (natDigits_ne_nil n) (natDigits_lt_ten n),
    fromDigits_natDigits]

theorem splitOnCharFn_not_mem {c : Char} : ∀ {l : List Char}, c ∉ l →
    splitOnCharFn c l = [l] := by
  intro l
  induction l with
  | nil => intro _; rfl
  | cons a t ih =>
    intro h
    have ha : (a == c) = false := by
      simp only [List.mem_cons, not_or] at h
      exact beq_eq_false_iff_ne.mpr (fun hh => h.1 hh.symm)
    have ht := ih (fun hm => h (List.mem_cons_of_mem a hm))
    simp [splitOnCharFn, ha, ht]

theorem splitOnCharFn_append {c : Char} : ∀ (a r : List Char), c ∉ a →
    splitOnCharFn c (a ++ c :: r) = a :: splitOnCharFn c r := by
  intro a
  induction a with
  | nil =>
    intro r _
    simp [splitOnCharFn]
  | cons x t ih =>
    intro r h
    have hx : (x == c) = false := by
      simp only [List.mem_cons, not_or] at h
      exact beq_eq_false_iff_ne.mpr (fun hh => h.1 hh.symm)
    have ht := ih r (fun hm => h (List.mem_cons_of_mem x hm))
    simp [splitOnCharFn, hx, ht]

/-! ### Characters occurring in rendered numbers -/

theorem mem_natChars {c : Char} {n : ℕ} (h : c ∈ natChars n) : ∃ k, c = digitChar k := by
  unfold natChars at h
  rcases List.mem_map.mp h with ⟨k, _, hk⟩
  exact ⟨k, hk.symm⟩

theorem mem_floatReprChars {c : Char} {q : ℚ} (h : c ∈ floatReprChars q) :
    c = '-' ∨ c = '.' ∨ ∃ k, c = digitChar k := by
  unfold floatReprChars at h
  simp only [List.mem_append, List.mem_cons] at h
  rcases h with (h | h) | h | h
  · left
    split at h <;> simp_all
  · right; right; exact mem_natChars h
  · right; left; exact h
  · right; right
    split at h
    · simp only [List.mem_singleton] at h
      exact ⟨0, by simpa [digitChar] using h⟩
    · rcases List.mem_map.mp h with ⟨k, _, hk⟩
      exact ⟨k, hk.symm⟩

theorem mem_intReprChars {c : Char} {q : ℚ} (h : c ∈ intReprChars q) :
    c = '-' ∨ c = '.' ∨ ∃ k, c = digitChar k := by
  unfold intReprChars at h
  simp only [List.mem_append] at h
  rcases h with h | h
  · left
    split at h <;> simp_all
  · right; right; exact mem_natChars h

theorem mem_pyNumReprChars {c : Char} {q : ℚ} {f : Bool} (h : c ∈ pyNumReprChars q f) :
    c = '-' ∨ c = '.' ∨ ∃ k, c = digitChar k := by
  unfold pyNumReprChars at h
  split at h
  · exact mem_floatReprChars h
  · exact mem_intReprChars h

theorem comma_not_mem_pyNumReprChars (q : ℚ) (f : Bool) : ',' ∉ pyNumReprChars q f := by
  intro h
  rcases mem_pyNumReprChars h with h | h | ⟨k, hk⟩
  · exact absurd h (by decide)
  · exact absurd h (by decide)
  · exact digitChar_ne_of_not_digit (by decide) k hk.symm

theorem newline_not_mem_pyNumReprChars (q : ℚ) (f : Bool) : '\n' ∉ pyNumReprChars q f := by
  intro h
  rcases mem_pyNumReprChars h with h | h | ⟨k, hk⟩
  · exact absurd h (by decide)
  · exact absurd h (by decide)
  · exact digitChar_ne_of_not_digit (by decide) k hk.symm

theorem dot_not_mem_natChars (n : ℕ) : '.' ∉ natChars n := by
  intro h
  rcases mem_natChars h with ⟨k, hk⟩
  exact digitChar_ne_of_not_digit (by decide) k hk.symm

theorem dash_not_mem_natChars (n : ℕ) : '-' ∉ natChars n := by
  intro h
  rcases mem_natChars h with ⟨k, hk⟩
  exact digitChar_ne_of_not_digit (by decide) k hk.symm

theorem dot_not_mem_map_digitChar (l : List ℕ) : '.' ∉ l.map digitChar := by
  intro h
  rcases List.mem_map.mp h with ⟨k, _, hk⟩
  exact digitChar_ne_of_not_digit (by decide) k hk

/-! ### Round trip: a written number parses back to itself -/

theorem natAbs_div_den (q : ℚ) : (q.num.natAbs : ℚ) / q.den = |q| := by
  have h1 : ((q.num.natAbs : ℚ)) = |(q.num : ℚ)| := by
    rw [Int.cast_natAbs, Int.cast_abs]
  have h2 : ((q.den : ℚ)) = |(q.den : ℚ)| := (abs_of_nonneg (by positivity)).symm
  rw [h1, h2, ← abs_div, Rat.num_div_den]

theorem parseUnsigned_eq_two {l a b : List Char} (h : splitOnCharFn '.' l = [a, b]) :
    parseUnsigned l =
      match parseNatChars a, parseNatChars b with
      | some x, some y => some ((x : ℚ) + (y : ℚ) / 10 ^ b.length)
      | _, _ => none := by
  unfold parseUnsigned
  rw [h]

theorem parseUnsigned_eq_one {l a : List Char} (h : splitOnCharFn '.' l = [a]) :
    parseUnsigned l = (parseNatChars a).map (fun n => (n : ℚ)) := by
  unfold parseUnsigned
  rw [h]

theorem parseUnsigned_body (ip fr d : ℕ) (hd : 0 < d) (hfr : fr < d)
    (hdvd : d ∣ fr * 10 ^ 17) :
    parseUnsigned (natChars ip ++ '.' ::
        (if (fracDigits 17 fr d).isEmpty then ['0'] else (fracDigits 17 fr d).map digitChar))
      = some ((ip : ℚ) + (fr : ℚ) / (d : ℚ)) := by
  rcases hds : fracDigits 17 fr d with _ | ⟨g0, gs⟩
  · have hfr0 : fr = 0 := fracDigits_nil hds
    show parseUnsigned (natChars ip ++ '.' :: ['0']) = some ((ip : ℚ) + (fr : ℚ) / (d : ℚ))
    have hsplit : splitOnCharFn '.' (natChars ip ++ '.' :: ['0']) = [natChars ip, ['0']] := by
      rw [splitOnCharFn_append _ _ (dot_not_mem_natChars ip)]
      rfl
    rw [parseUnsigned_eq_two hsplit, parseNatChars_natChars]
    have hz : parseNatChars ['0'] = some 0 := by decide
    rw [hz]
    norm_num [hfr0]
  · show parseUnsigned (natChars ip ++ '.' :: List.map digitChar (g0 :: gs))
      = some ((ip : ℚ) + (fr : ℚ) / (d : ℚ))
    rw [← hds]
    have hne : fracDigits 17 fr d ≠ [] := by
      rw [hds]
      simp
    have hlt := fracDigits_lt_ten 17 fr d hfr
    have hparse := parseNatChars_map_digitChar _ hne hlt
    have hsplit : splitOnCharFn '.'
        (natChars ip ++ '.' :: (fracDigits 17 fr d).map digitChar)
        = [natChars ip, (fracDigits 17 fr d).map digitChar] := by
      rw [splitOnCharFn_append _ _ (dot_not_mem_natChars ip),
        splitOnCharFn_not_mem (dot_not_mem_map_digitChar _)]
    rw [parseUnsigned_eq_two hsplit, parseNatChars_natChars, hparse]
    simp only [List.length_map]
    have hspec := fracDigits_spec 17 fr d hd hfr
    rw [fracRem_eq_zero 17 fr d hd hfr hdvd, Nat.add_zero] at hspec
    have hcast : (fr : ℚ) * 10 ^ (fracDigits 17 fr d).length
        = (fromDigits (fracDigits 17 fr d) : ℚ) * d := by
      exact_mod_cast congrArg (fun x : ℕ => (x : ℚ)) hspec
    have hd0 : (d : ℚ) ≠ 0 := by positivity
    have hp0 : ((10 : ℚ)) ^ (fracDigits 17 fr d).length ≠ 0 := by positivity
    have hfrac : (fromDigits (fracDigits 17 fr d) : ℚ) / 10 ^ (fracDigits 17 fr d).length
        = (fr : ℚ) / d := by
      field_simp
      linarith [hcast]
    rw [hfrac]

theorem parse_floatRepr (q : ℚ) (h : q.den ∣ 10 ^ 17) :
    parseDecChars (floatReprChars q) = some q := by
  have hd : 0 < q.den := q.pos
  have hfr : q.num.natAbs % q.den < q.den := Nat.mod_lt _ hd
  have hdvd : q.den ∣ (q.num.natAbs % q.den) * 10 ^ 17 := h.mul_left _
  have hbody := parseUnsigned_body (q.num.natAbs / q.den) (q.num.natAbs % q.den) q.den hd hfr hdvd
  have hval : ((q.num.natAbs / q.den : ℕ) : ℚ) + ((q.num.natAbs % q.den : ℕ) : ℚ) / (q.den : ℚ)
      = |q| := by
    rw [← natAbs_div_den q]
    have hnd : q.den * (q.num.natAbs / q.den) + q.num.natAbs % q.den = q.num.natAbs :=
      Nat.div_add_mod _ _
    have hndq : ((q.den : ℚ)) * ((q.num.natAbs / q.den : ℕ) : ℚ)
        + ((q.num.natAbs % q.den : ℕ) : ℚ) = (q.num.natAbs : ℚ) := by
      exact_mod_cast congrArg (fun x : ℕ => (x : ℚ)) hnd
    have hd0 : (q.den : ℚ) ≠ 0 := by positivity
    rw [← hndq]
    field_simp
    ring
  rw [hval] at hbody
  by_cases hq : q < 0
  · have hform : floatReprChars q = '-' :: (natChars (q.num.natAbs / q.den) ++ '.' ::
        (if (fracDigits 17 (q.num.natAbs % q.den) q.den).isEmpty then ['0']
         else (fracDigits 17 (q.num.natAbs % q.den) q.den).map digitChar)) := by
      simp only [floatReprChars, hq, if_true]
      rfl
    rw [hform]
    simp only [parseDecChars]
    rw [if_pos (by rfl), hbody]
    simp [abs_of_neg hq]
  · rcases hnd : natDigits (q.num.natAbs / q.den) with _ | ⟨d0, ds⟩
    · exact absurd hnd (natDigits_ne_nil _)
    · have hnc : natChars (q.num.natAbs / q.den) = digitChar d0 :: ds.map digitChar := by
        rw [natChars, hnd, List.map_cons]
      have hform : floatReprChars q = digitChar d0 :: (ds.map digitChar ++ '.' ::
          (if (fracDigits 17 (q.num.natAbs % q.den) q.den).isEmpty then ['0']
           else (fracDigits 17 (q.num.natAbs % q.den) q.den).map digitChar)) := by
        simp only [floatReprChars, hq, if_false, List.nil_append]
        rw [hnc]
        rfl
      have hne : (digitChar d0 == '-') = false :=
        beq_eq_false_iff_ne.mpr (digitChar_ne_of_not_digit (by decide) d0)
      rw [hform]
      simp only [parseDecChars, hne]
      rw [if_neg (by simp)]
      have hback : digitChar d0 :: (ds.map digitChar ++ '.' ::
          (if (fracDigits 17 (q.num.natAbs % q.den) q.den).isEmpty then ['0']
           else (fracDigits 17 (q.num.natAbs % q.den) q.den).map digitChar))
          = natChars (q.num.natAbs / q.den) ++ '.' ::
          (if (fracDigits 17 (q.num.natAbs % q.den) q.den).isEmpty then ['0']
           else (fracDigits 17 (q.num.natAbs % q.den) q.den).map digitChar) := by
        rw [hnc]
        rfl
      rw [hback, hbody, abs_of_nonneg (not_lt.mp hq)]

theorem parse_intRepr (q : ℚ) (h : q.den = 1) : parseDecChars (intReprChars q) = some q := by
  have habs : ((q.num.natAbs : ℚ)) = |q| := by
    have := natAbs_div_den q
    rwa [h, Nat.cast_one, div_one] at this
  have hbody : parseUnsigned (natChars q.num.natAbs) = some |q| := by
    rw [parseUnsigned_eq_one (splitOnCharFn_not_mem (dot_not_mem_natChars _)),
      parseNatChars_natChars]
    simp [habs]
  by_cases hq : q < 0
  · have hform : intReprChars q = '-' :: natChars q.num.natAbs := by
      simp only [intReprChars, hq, if_true]
      rfl
    rw [hform]
    simp only [parseDecChars]
    rw [if_pos (by rfl), hbody]
    simp [abs_of_neg hq]
  · rcases hnd : natDigits q.num.natAbs with _ | ⟨d0, ds⟩
    · exact absurd hnd (natDigits_ne_nil _)
    · have hnc : natChars q.num.natAbs = digitChar d0 :: ds.map digitChar := by
        rw [natChars, hnd, List.map_cons]
      have hform : intReprChars q = digitChar d0 :: ds.map digitChar := by
        simp only [intReprChars, hq, if_false, List.nil_append]
        exact hnc
      have hne : (digitChar d0 == '-') = false :=
        beq_eq_false_iff_ne.mpr (digitChar_ne_of_not_digit (by decide) d0)
      rw [hform]
      simp only [parseDecChars, hne]
      rw [if_neg (by simp), ← hnc, hbody, abs_of_nonneg (not_lt.mp hq)]

theorem parse_pyNumRepr (q : ℚ) (f : Bool) (hf : f = true → q.den ∣ 10 ^ 17)
    (hi : f = false → q.den = 1) :
    parseDecChars (pyNumReprChars q f) = some q := by
  cases f
  · simpa [pyNumReprChars] using parse_intRepr q (hi rfl)
  · simpa [pyNumReprChars] using parse_floatRepr q (hf rfl)

/-! ### Lemmas about the pending-entry dict -/

theorem pyKeyEq_refl {k : JVal} (h : hashable k = true) : pyKeyEq k k = true := by
  cases k <;> simp_all [pyKeyEq, hashable]

theorem dlookup_none_forall : ∀ {s : DataState} {k : JVal}, dlookup s k = none →
    ∀ p ∈ s, pyKeyEq p.1 k = false := by
  intro s
  induction s with
  | nil => intro k _ p hp; simp at hp
  | cons q t ih =>
    intro k hl p hp
    rcases q with ⟨k1, e1⟩
    by_cases hk : pyKeyEq k1 k
    · simp [dlookup, hk] at hl
    · rcases List.mem_cons.mp hp with hp | hp
      · subst hp
        simpa using hk
      · refine ih ?_ p hp
        simpa [dlookup, hk] using hl

theorem dinsert_of_not_found : ∀ {s : DataState} {k : JVal} (e : Entry),
    dlookup s k = none → dinsert s k e = s ++ [(k, e)] := by
  intro s
  induction s with
  | nil => intro k e _; rfl
  | cons q t ih =>
    intro k e hl
    rcases q with ⟨k1, e1⟩
    by_cases hk : pyKeyEq k1 k
    · simp [dlookup, hk] at hl
    · have hl2 : dlookup t k = none := by simpa [dlookup, hk] using hl
      simp [dinsert, hk, ih e hl2]

theorem dlookup_append_self {s : DataState} {k : JVal} (e : Entry)
    (hl : dlookup s k = none) (hrefl : pyKeyEq k k = true) :
    dlookup (s ++ [(k, e)]) k = some e := by
  induction s with
  | nil => simp [dlookup, hrefl]
  | cons q t ih =>
    rcases q with ⟨k1, e1⟩
    by_cases hk : pyKeyEq k1 k
    · simp [dlookup, hk] at hl
    · have hl2 : dlookup t k = none := by simpa [dlookup, hk] using hl
      simpa [dlookup, hk] using ih hl2

theorem dinsert_append_self {s : DataState} {k : JVal} (e e2 : Entry)
    (hl : dlookup s k = none) (hrefl : pyKeyEq k k = true) :
    dinsert (s ++ [(k, e)]) k e2 = s ++ [(k, e2)] := by
  induction s with
  | nil => simp [dinsert, hrefl]
  | cons q t ih =>
    rcases q with ⟨k1, e1⟩
    by_cases hk : pyKeyEq k1 k
    · simp [dlookup, hk] at hl
    · have hl2 : dlookup t k = none := by simpa [dlookup, hk] using hl
      simp [dinsert, hk, ih hl2]

theorem dremove_append_self {s : DataState} {k : JVal} (e : Entry)
    (hl : dlookup s k = none) (hrefl : pyKeyEq k k = true) :
    dremove (s ++ [(k, e)]) k = s := by
  induction s with
  | nil => simp [dremove, hrefl]
  | cons q t ih =>
    rcases q with ⟨k1, e1⟩
    by_cases hk : pyKeyEq k1 k
    · simp [dlookup, hk] at hl
    · have hl2 : dlookup t k = none := by simpa [dlookup, hk] using hl
      simp [dremove, hk, ih hl2]

theorem dlookup_dinsert_self {s : DataState} {k : JVal} (e : Entry)
    (hrefl : pyKeyEq k k = true) :
    dlookup (dinsert s k e) k = some e := by
  induction s with
  | nil => simp [dinsert, dlookup, hrefl]
  | cons q t ih =>
    rcases q with ⟨k1, e1⟩
    by_cases hk : pyKeyEq k1 k
    · simp [dinsert, dlookup, hk]
    · simpa [dinsert, dlookup, hk] using ih

theorem mem_dinsert : ∀ {s : DataState} {k : JVal} {e : Entry} {p : JVal × Entry},
    p ∈ dinsert s k e → p ∈ s ∨ p.2 = e := by
  intro s
  induction s with
  | nil =>
    intro k e p hp
    simp only [dinsert, List.mem_singleton] at hp
    right
    rw [hp]
  | cons q t ih =>
    intro k e p hp
    rcases q with ⟨k1, e1⟩
    by_cases hk : pyKeyEq k1 k
    · simp only [dinsert, hk, if_true, List.mem_cons] at hp
      rcases hp with hp | hp
      · right; rw [hp]
      · left; exact List.mem_cons_of_mem _ hp
    · simp only [dinsert, hk, Bool.false_eq_true, if_false, List.mem_cons] at hp
      rcases hp with hp | hp
      · left; exact hp ▸ List.mem_cons_self _ _
      · rcases ih hp with hp2 | hp2
        · left; exact List.mem_cons_of_mem _ hp2
        · right; exact hp2

theorem mem_dremove : ∀ {s : DataState} {k : JVal} {p : JVal × Entry},
    p ∈ dremove s k → p ∈ s := by
  intro s
  induction s with
  | nil => intro k p hp; simp [dremove] at hp
  | cons q t ih =>
    intro k p hp
    rcases q with ⟨k1, e1⟩
    by_cases hk : pyKeyEq k1 k
    · simp only [dremove, hk, if_true] at hp
      exact List.mem_cons_of_mem _ hp
    · simp only [dremove, hk, Bool.false_eq_true, if_false, List.mem_cons] at hp
      rcases hp with hp | hp
      · exact hp ▸ List.mem_cons_self _ _
      · exact List.mem_cons_of_mem _ (ih hp)

theorem mem_dremove_dinsert {k : JVal} (hrefl : pyKeyEq k k = true) :
    ∀ {s : DataState} {e : Entry} {p : JVal × Entry},
    p ∈ dremove (dinsert s k e) k → p ∈ s := by
  intro s
  induction s with
  | nil =>
    intro e p hp
    simp [dinsert, dremove, hrefl] at hp
  | cons q t ih =>
    intro e p hp
    rcases q with ⟨k1, e1⟩
    by_cases hk : pyKeyEq k1 k
    · simp only [dinsert, hk, if_true, dremove] at hp
      exact List.mem_cons_of_mem _ hp
    · simp only [dinsert, hk, Bool.false_eq_true, if_false, dremove, List.mem_cons] at hp
      rcases hp with hp | hp
      · exact hp ▸ List.mem_cons_self _ _
      · exact List.mem_cons_of_mem _ (ih hp)

/-! ### Lemmas about the handler -/

/-- The dict state carried by a handler outcome, whether it returned or
raised. -/
def stateOf : Except (PyError × DataState) (DataState × Option (List Char)) → DataState
  | .ok (d, _) => d
  | .error (_, d) => d

theorem process_message_fst (rk : String) (p : ParseResult) (w : Bool) (data : DataState) :
    (process_message rk p w data).1 = stateOf (processCore rk p w data) := by
  cases hc : processCore rk p w data with
  | ok v =>
    rcases v with ⟨d, row⟩
    simp [process_message, stateOf, hc]
  | error v =>
    rcases v with ⟨e, d⟩
    simp [process_message, stateOf, hc, handlerCatches, isExceptionInstance]

/-- The amended completion invariant: an entry holding both halves can
only hold a pair whose subtraction raises. -/
def entryOk (e : Entry) : Prop :=
  ∀ a b, e.y_true = some a → e.y_pred = some b → pySub a b = none

/-- Every stored pending entry satisfies `entryOk`. -/
def NoCompletePair (s : DataState) : Prop := ∀ p ∈ s, entryOk p.2

theorem checkComplete_plain_inv (w : Bool) (mid : JVal) (data : DataState)
    (hinv : NoCompletePair data) :
    NoCompletePair (stateOf (checkComplete w mid data)) := by
  unfold checkComplete
  split
  · cases hl : dlookup data mid with
    | none => exact hinv
    | some e =>
      rcases e with ⟨eyt, eyp⟩
      dsimp only
      cases eyt with
      | none => exact hinv
      | some yt =>
        cases eyp with
        | none => exact hinv
        | some yp =>
          dsimp only
          cases hsub : pySub yt yp with
          | none => exact hinv
          | some qf =>
            rcases qf with ⟨q, f⟩
            intro p hp
            exact hinv p (mem_dremove hp)
  · exact hinv

theorem checkComplete_insert_inv (w : Bool) (mid : JVal) (data : DataState) (e2 : Entry)
    (hh : hashable mid = true) (hinv : NoCompletePair data) :
    NoCompletePair (stateOf (checkComplete w mid (dinsert data mid e2))) := by
  have hrefl := pyKeyEq_refl hh
  have hlk := @dlookup_dinsert_self data mid e2 hrefl
  have hmem : ∀ p : JVal × Entry, p ∈ dinsert data mid e2 → entryOk e2 → entryOk p.2 := by
    intro p hp hok
    rcases mem_dinsert hp with hp2 | hp2
    · exact hinv p hp2
    · rw [hp2]; exact hok
  unfold checkComplete
  rw [hh, if_pos rfl, hlk]
  rcases e2 with ⟨eyt, eyp⟩
  dsimp only
  cases eyt with
  | none =>
    intro p hp
    exact hmem p hp (fun a b ha _ => by cases ha)
  | some yt =>
    cases eyp with
    | none =>
      intro p hp
      exact hmem p hp (fun a b _ hb => by cases hb)
    | some yp =>
      dsimp only
      cases hsub : pySub yt yp with
      | none =>
        intro p hp
        refine hmem p hp ?_
        intro a b ha hb
        cases ha
        cases hb
        exact hsub
      | some qf =>
        rcases qf with ⟨q, f⟩
        intro p hp
        exact hinv p (mem_dremove_dinsert hrefl hp)

theorem truthy_num {kq : ℚ} {kf : Bool} (hk : kq ≠ 0) : truthy (.num kq kf) = true := by
  simp [truthy, hk]

theorem pyKeyEq_num_refl (kq : ℚ) (kf : Bool) : pyKeyEq (.num kq kf) (.num kq kf) = true := by
  simp [pyKeyEq]

theorem process_first_true (m : List (String × JVal)) (v : JVal) (kq : ℚ) (kf : Bool)
    (w : Bool) (data : DataState)
    (hid : dictGet m "id" = JVal.num kq kf) (hk : kq ≠ 0)
    (hv : extractValue m = v) (hvn : isNull v = false)
    (h0 : dlookup data (.num kq kf) = none) :
    process_message "y_true" (.obj m) w data
      = (data ++ [(.num kq kf, { y_true := some v, y_pred := none })], none, none) := by
  have hrefl := pyKeyEq_num_refl kq kf
  have hcore : processCore "y_true" (.obj m) w data
      = .ok (data ++ [(.num kq kf, { y_true := some v, y_pred := none })], none) := by
    unfold processCore
    dsimp only
    rw [hid, hv, truthy_num hk, hvn]
    simp only [Bool.not_true, Bool.false_eq_true, if_false, beq_self_eq_true, if_true,
      hashable, h0, Option.getD_none]
    rw [dinsert_of_not_found _ h0]
    unfold checkComplete
    rw [dlookup_append_self _ h0 hrefl]
    simp [hashable]
  simp [process_message, hcore]


theorem process_first_pred (m : List (String × JVal)) (v : JVal) (kq : ℚ) (kf : Bool)
    (w : Bool) (data : DataState)
    (hid : dictGet m "id" = JVal.num kq kf) (hk : kq ≠ 0)
    (hv : extractValue m = v) (hvn : isNull v = false)
    (h0 : dlookup data (.num kq kf) = none) :
    process_message "y_pred" (.obj m) w data
      = (data ++ [(.num kq kf, { y_true := none, y_pred := some v })], none, none) := by
  have hrefl := pyKeyEq_num_refl kq kf
  have hbeq : (("y_pred" : String) == "y_true") = false := by decide
  have hcore : processCore "y_pred" (.obj m) w data
      = .ok (data ++ [(.num kq kf, { y_true := none, y_pred := some v })], none) := by
    unfold processCore
    dsimp only
    rw [hid, hv, truthy_num hk, hvn]
    simp only [Bool.not_true, Bool.false_eq_true, if_false, hbeq, beq_self_eq_true, if_true,
      hashable, h0, Option.getD_none]
    rw [dinsert_of_not_found _ h0]
    unfold checkComplete
    rw [dlookup_append_self _ h0 hrefl]
    simp [hashable]
  simp [process_message, hcore]

theorem process_second_pred (m : List (String × JVal)) (v yt : JVal) (kq q : ℚ) (kf f : Bool)
    (data : DataState)
    (hid : dictGet m "id" = JVal.num kq kf) (hk : kq ≠ 0)
    (hv : extractValue m = v) (hvn : isNull v = false)
    (h0 : dlookup data (.num kq kf) = none)
    (hsub : pySub yt v = some (q, f)) :
    process_message "y_pred" (.obj m) true
        (data ++ [(.num kq kf, { y_true := some yt, y_pred := none })])
      = (data, some (rowChars (.num kq kf) yt v (.num |q| f)), none) := by
  have hrefl := pyKeyEq_num_refl kq kf
  have hbeq : (("y_pred" : String) == "y_true") = false := by decide
  have hl1 : dlookup (data ++ [(.num kq kf, { y_true := some yt, y_pred := none })]) (.num kq kf)
      = some { y_true := some yt, y_pred := none } := dlookup_append_self _ h0 hrefl
  have hcore : processCore "y_pred" (.obj m) true
      (data ++ [(.num kq kf, { y_true := some yt, y_pred := none })])
      = .ok (data, some (rowChars (.num kq kf) yt v (.num |q| f))) := by
    unfold processCore
    dsimp only
    rw [hid, hv, truthy_num hk, hvn]
    simp only [Bool.not_true, Bool.false_eq_true, if_false, hbeq, beq_self_eq_true, if_true,
      hashable, hl1, Option.getD_some]
    rw [dinsert_append_self _ _ h0 hrefl]
    unfold checkComplete
    rw [dlookup_append_self _ h0 hrefl]
    dsimp only [hashable]
    rw [if_pos rfl]
    rw [hsub]
    rw [dremove_append_self _ h0 hrefl]
    simp [log_error_to_csv]
  simp [process_message, hcore]

theorem process_second_true (m : List (String × JVal)) (v yp : JVal) (kq q : ℚ) (kf f : Bool)
    (data : DataState)
    (hid : dictGet m "id" = JVal.num kq kf) (hk : kq ≠ 0)
    (hv : extractValue m = v) (hvn : isNull v = false)
    (h0 : dlookup data (.num kq kf) = none)
    (hsub : pySub v yp = some (q, f)) :
    process_message "y_true" (.obj m) true
        (data ++ [(.num kq kf, { y_true := none, y_pred := some yp })])
      = (data, some (rowChars (.num kq kf) v yp (.num |q| f)), none) := by
  have hrefl := pyKeyEq_num_refl kq kf
  have hl1 : dlookup (data ++ [(.num kq kf, { y_true := none, y_pred := some yp })]) (.num kq kf)
      = some { y_true := none, y_pred := some yp } := dlookup_append_self _ h0 hrefl
  have hcore : processCore "y_true" (.obj m) true
      (data ++ [(.num kq kf, { y_true := none, y_pred := some yp })])
      = .ok (data, some (rowChars (.num kq kf) v yp (.num |q| f))) := by
    unfold processCore
    dsimp only
    rw [hid, hv, truthy_num hk, hvn]
    simp only [Bool.not_true, Bool.false_eq_true, if_false, beq_self_eq_true, if_true,
      hashable, hl1, Option.getD_some]
    rw [dinsert_append_self _ _ h0 hrefl]
    unfold checkComplete
    rw [dlookup_append_self _ h0 hrefl]
    dsimp only [hashable]
    rw [if_pos rfl]
    rw [hsub]
    rw [dremove_append_self _ h0 hrefl]
    simp [log_error_to_csv]
  simp [process_message, hcore]

/-! ### Claim theorems -/

/-- C4: for every routing key, every decode outcome of the raw message
bytes, every write outcome and every dict state, `process_message`
propagates no exception to its caller, so one bad message never stops the
consuming loop. -/
theorem process_message_never_raises (rk : String) (parsed : ParseResult) (w : Bool)
    (data : DataState) :
    (process_message rk parsed w data).2.2 = none := by
  cases hc : processCore rk parsed w data with
  | ok v =>
    rcases v with ⟨d, row⟩
    simp [process_message, hc]
  | error v =>
    rcases v with ⟨e, d⟩
    simp [process_message, hc, handlerCatches, isExceptionInstance]

/-- C4 witness: a malformed body on the `features` routing key raises
nothing. -/
theorem process_message_never_raises_witness :
    (process_message "features" .malformed true []).2.2 = none :=
  process_message_never_raises "features" .malformed true []

/-- C3: a malformed input — body that is not valid JSON, or an object
without a correlation id, or without both value fields — produces no log
row, leaves the pending dict exactly as it was, and returns normally. -/
theorem malformed_message_no_effect (rk : String) (w : Bool) (data : DataState)
    (parsed : ParseResult)
    (h : parsed = .malformed ∨
      (∃ m, parsed = .obj m ∧ dictGet m "id" = .null) ∨
      (∃ m, parsed = .obj m ∧ dictGet m "body" = .null ∧ dictGet m "prediction" = .null)) :
    process_message rk parsed w data = (data, none, none) := by
  rcases h with h | ⟨m, hm, hid⟩ | ⟨m, hm, hb, hpr⟩
  · subst h
    simp [process_message, processCore, handlerCatches, isExceptionInstance]
  · subst hm
    have hcore : processCore rk (.obj m) w data = .ok (data, none) := by
      unfold processCore
      dsimp only
      rw [hid]
      rfl
    simp [process_message, hcore]
  · subst hm
    have hval : extractValue m = .null := by
      simp [extractValue, hb, hpr, truthy]
    have hcore : processCore rk (.obj m) w data = .ok (data, none) := by
      unfold processCore
      dsimp only
      rw [hval]
      cases htr : truthy (dictGet m "id") <;> simp [htr, isNull]
    simp [process_message, hcore]

/-- C3 witness: an undecodable body is dropped with the dict unchanged. -/
theorem malformed_message_no_effect_witness :
    process_message "y_true" .malformed true [] = ([], none, none) :=
  malformed_message_no_effect "y_true" true [] .malformed (Or.inl rfl)

/-- C9: an `id` equal to `0`/`0.0` is treated as missing (message
discarded, dict untouched, nothing logged); a `body` equal to `0`/`0.0`
with no `prediction` key is likewise discarded even though it carries a
number; and a truthy `body` always wins over a `prediction` key present in
the same message. -/
theorem falsy_id_and_body_discarded :
    (∀ (m : List (String × JVal)) (f : Bool) (rk : String) (w : Bool) (data : DataState),
      dictGet m "id" = .num 0 f →
      process_message rk (.obj m) w data = (data, none, none)) ∧
    (∀ (m : List (String × JVal)) (f : Bool) (rk : String) (w : Bool) (data : DataState),
      dictGet m "body" = .num 0 f → dictGet m "prediction" = .null →
      process_message rk (.obj m) w data = (data, none, none)) ∧
    (∀ m : List (String × JVal), truthy (dictGet m "body") = true →
      extractValue m = dictGet m "body") := by
  refine ⟨?_, ?_, ?_⟩
  · intro m f rk w data hid
    have hcore : processCore rk (.obj m) w data = .ok (data, none) := by
      unfold processCore
      dsimp only
      rw [hid]
      simp [truthy]
    simp [process_message, hcore]
  · intro m f rk w data hb hpr
    have hval : extractValue m = .null := by
      simp [extractValue, hb, hpr, truthy]
    have hcore : processCore rk (.obj m) w data = .ok (data, none) := by
      unfold processCore
      dsimp only
      rw [hval]
      cases htr : truthy (dictGet m "id") <;> simp [htr, isNull]
    simp [process_message, hcore]
  · intro m hb
    simp [extractValue, hb]

/-- C9 witness: the message with id `0.0` and body `5.0` is discarded. -/
theorem falsy_id_and_body_discarded_witness :
    process_message "y_true" (.obj [("id", .num 0 true), ("body", .num 5 true)]) true []
      = ([], none, none) :=
  falsy_id_and_body_discarded.1 [("id", .num 0 true), ("body", .num 5 true)] true
    "y_true" true [] rfl

/-- C10: whatever character the platform uses as the path separator
inserted by `os.path.join`, the CSV file the correlator appends to is not
the file the visualizer reads. -/
theorem writer_reader_paths_differ (sep : Char) : metricCsvPath sep ≠ plotCsvPath := by
  intro h
  have h1 : (String.singleton sep).length = 1 := rfl
  have h16 : log_dir.length = 16 := rfl
  have h14 : ("metric_log.csv" : String).length = 14 := rfl
  have h26 : plotCsvPath.length = 26 := rfl
  unfold metricCsvPath at h
  split at h
  · have hl := congrArg String.length h
    rw [String.length_append, h16, h14, h26] at hl
    omega
  · have hl := congrArg String.length h
    rw [String.length_append, String.length_append, h16, h1, h14, h26] at hl
    omega

/-- C10 witness: with the posix separator the two paths differ. -/
theorem writer_reader_paths_differ_witness : metricCsvPath '/' ≠ plotCsvPath :=
  writer_reader_paths_differ '/'

/-- C5: the ground truth `{"id":1000.0,"body":42.0}` on `y_true` followed
by the prediction `{"id":1000.0,"prediction":40.5}` on `y_pred` — read
through the `prediction` synonym — appends exactly the row
`1000.0,42.0,40.5,1.5` (and the first message appends nothing). -/
theorem prediction_synonym_example_row :
    (process_message "y_true" (.obj [("id", .num 1000 true), ("body", .num 42 true)])
        true []).2.1 = none ∧
    (process_message "y_pred" (.obj [("id", .num 1000 true), ("prediction", .num 40.5 true)])
        true
        (process_message "y_true" (.obj [("id", .num 1000 true), ("body", .num 42 true)])
          true []).1).2.1
      = some ("1000.0,42.0,40.5,1.5".data) := by
  have e405 : (40.5 : ℚ) = Rat.mk' 81 2 (by norm_num) (by norm_num) := by
    rw [Rat.mk'_eq_divInt, Rat.divInt_eq_div]
    norm_num
  have esub : |(42 : ℚ) - 40.5| = Rat.mk' 3 2 (by norm_num) (by norm_num) := by
    rw [Rat.mk'_eq_divInt, Rat.divInt_eq_div]
    norm_num
  have hT := process_first_true [("id", .num 1000 true), ("body", .num 42 true)]
    (.num 42 true) 1000 true true [] rfl (by norm_num) rfl rfl rfl
  have hsub : pySub (.num 42 true) (.num (40.5 : ℚ) true)
      = some ((42 : ℚ) - 40.5, true || true) := rfl
  have hP := process_second_pred [("id", .num 1000 true), ("prediction", .num 40.5 true)]
    (.num 40.5 true) (.num 42 true) 1000 ((42 : ℚ) - 40.5) true (true || true) []
    rfl (by norm_num) rfl rfl rfl hsub
  constructor
  · rw [hT]
  · rw [hT]
    dsimp only
    rw [hP]
    dsimp only
    rw [esub, e405]
    rfl

/-- C1 counterexample: the pair with ground truth `0.0` — two well-formed
messages sharing id `1.0`, each carrying a number — produces no
`ErrorRecord` at all (the claimed unique record with error `|0 - 2| = 2`
is never emitted): the falsy body makes the first message be discarded. -/
theorem pair_zero_body_counterexample :
    (process_message "y_true" (.obj [("id", .num 1 true), ("body", .num 0 true)])
        true []).2.1 = none ∧
    (process_message "y_pred" (.obj [("id", .num 1 true), ("body", .num 2 true)]) true
        (process_message "y_true" (.obj [("id", .num 1 true), ("body", .num 0 true)])
          true []).1).2.1 = none ∧
    (process_message "y_pred" (.obj [("id", .num 1 true), ("body", .num 2 true)]) true
        (process_message "y_true" (.obj [("id", .num 1 true), ("body", .num 0 true)])
          true []).1).1
      = [(.num 1 true, { y_true := none, y_pred := some (.num 2 true) })] := by
  refine ⟨rfl, rfl, rfl⟩

/-- C2 counterexample: from the reachable state created by a list-valued
ground truth for id `1.0`, processing the numeric prediction stores the
second half, the subtraction raises `TypeError` before `del`, and the
invocation leaves an entry holding both a ground-truth and a prediction
value. -/
theorem invariant_both_halves_counterexample :
    (process_message "y_pred" (.obj [("id", .num 1 true), ("body", .num 2 true)]) true
        (process_message "y_true"
          (.obj [("id", .num 1 true), ("body", .arr [.num 1 true])]) true []).1).1
      = [(.num 1 true,
          { y_true := some (.arr [.num 1 true]), y_pred := some (.num 2 true) })] := by
  rfl

/-- C6: when a valid half arrives on `y_true` or `y_pred` for an id with no
pending entry, nothing is logged, nothing raises, and afterwards the dict
holds an entry for that id containing exactly the half that arrived. -/
theorem single_half_pending_persists
    (m : List (String × JVal)) (v : JVal) (kq : ℚ) (kf : Bool) (rk : String)
    (w : Bool) (data : DataState)
    (hid : dictGet m "id" = .num kq kf) (hk : kq ≠ 0)
    (hv : extractValue m = v) (hvn : isNull v = false)
    (h0 : dlookup data (.num kq kf) = none)
    (hrk : rk = "y_true" ∨ rk = "y_pred") :
    (process_message rk (.obj m) w data).2.1 = none ∧
    (process_message rk (.obj m) w data).2.2 = none ∧
    dlookup (process_message rk (.obj m) w data).1 (.num kq kf)
      = some (if rk = "y_true" then { y_true := some v, y_pred := none }
              else { y_true := none, y_pred := some v }) := by
  rcases hrk with hrk | hrk <;> subst hrk
  · rw [process_first_true m v kq kf w data hid hk hv hvn h0]
    refine ⟨rfl, rfl, ?_⟩
    rw [if_pos rfl]
    exact dlookup_append_self _ h0 (pyKeyEq_num_refl kq kf)
  · rw [process_first_pred m v kq kf w data hid hk hv hvn h0]
    refine ⟨rfl, rfl, ?_⟩
    rw [if_neg (by decide)]
    exact dlookup_append_self _ h0 (pyKeyEq_num_refl kq kf)

/-- C6 witness: a lone ground truth for id `9.0` stays pending. -/
theorem single_half_pending_persists_witness :
    (process_message "y_true" (.obj [("id", .num 9 true), ("body", .num 4 true)])
        true []).2.1 = none ∧
    (process_message "y_true" (.obj [("id", .num 9 true), ("body", .num 4 true)])
        true []).2.2 = none ∧
    dlookup (process_message "y_true" (.obj [("id", .num 9 true), ("body", .num 4 true)])
        true []).1 (.num 9 true)
      = some (if ("y_true" : String) = "y_true"
              then { y_true := some (.num 4 true), y_pred := none }
              else { y_true := none, y_pred := some (.num 4 true) }) :=
  single_half_pending_persists [("id", .num 9 true), ("body", .num 4 true)]
    (.num 4 true) 9 true "y_true" true [] rfl (by norm_num) rfl rfl rfl (Or.inl rfl)

/-- C1 (amended): for a pair of well-formed messages sharing a truthy id,
each carrying a number the handler actually extracts (a nonzero `body`, or
a `prediction` field when `body` is absent or falsy), processing both
halves from a state with no pending entry for that id appends exactly one
row with absolute error `|g - p|`; the first half appends nothing, the
pending entry is gone afterwards, and the appended row is literally the
same term whichever half is processed first.  (The unamended claim — with
zero allowed as a carried number — fails: see the counterexample.) -/
theorem pair_emits_single_record_any_order
    (m1 m2 : List (String × JVal)) (kq g p : ℚ) (kf fg fp : Bool) (data : DataState)
    (hid1 : dictGet m1 "id" = .num kq kf) (hid2 : dictGet m2 "id" = .num kq kf)
    (hk : kq ≠ 0)
    (hg : extractValue m1 = .num g fg) (hp : extractValue m2 = .num p fp)
    (h0 : dlookup data (.num kq kf) = none) :
    (process_message "y_true" (.obj m1) true data).2.1 = none ∧
    process_message "y_pred" (.obj m2) true
        (process_message "y_true" (.obj m1) true data).1
      = (data,
         some (rowChars (.num kq kf) (.num g fg) (.num p fp) (.num |g - p| (fg || fp))),
         none) ∧
    (process_message "y_pred" (.obj m2) true data).2.1 = none ∧
    process_message "y_true" (.obj m1) true
        (process_message "y_pred" (.obj m2) true data).1
      = (data,
         some (rowChars (.num kq kf) (.num g fg) (.num p fp) (.num |g - p| (fg || fp))),
         none) := by
  have hvn1 : isNull (JVal.num g fg) = false := rfl
  have hvn2 : isNull (JVal.num p fp) = false := rfl
  have hsub : pySub (.num g fg) (.num p fp) = some (g - p, fg || fp) := rfl
  have hfirstT := process_first_true m1 (.num g fg) kq kf true data hid1 hk hg hvn1 h0
  have hfirstP := process_first_pred m2 (.num p fp) kq kf true data hid2 hk hp hvn2 h0
  refine ⟨?_, ?_, ?_, ?_⟩
  · rw [hfirstT]
  · rw [hfirstT]
    dsimp only
    exact process_second_pred m2 (.num p fp) (.num g fg) kq (g - p) kf (fg || fp) data
      hid2 hk hp hvn2 h0 hsub
  · rw [hfirstP]
  · rw [hfirstP]
    dsimp only
    exact process_second_true m1 (.num g fg) (.num p fp) kq (g - p) kf (fg || fp) data
      hid1 hk hg hvn1 h0 hsub

/-- C1 witness: the pair (g, p) = (3, 1) under id 7, in either order. -/
theorem pair_emits_single_record_any_order_witness :
    (process_message "y_true" (.obj [("id", .num 7 true), ("body", .num 3 true)])
        true []).2.1 = none ∧
    process_message "y_pred" (.obj [("id", .num 7 true), ("prediction", .num 1 true)]) true
        (process_message "y_true" (.obj [("id", .num 7 true), ("body", .num 3 true)])
          true []).1
      = ([],
         some (rowChars (.num 7 true) (.num 3 true) (.num 1 true)
           (.num |(3 : ℚ) - 1| (true || true))),
         none) ∧
    (process_message "y_pred" (.obj [("id", .num 7 true), ("prediction", .num 1 true)])
        true []).2.1 = none ∧
    process_message "y_true" (.obj [("id", .num 7 true), ("body", .num 3 true)]) true
        (process_message "y_pred" (.obj [("id", .num 7 true), ("prediction", .num 1 true)])
          true []).1
      = ([],
         some (rowChars (.num 7 true) (.num 3 true) (.num 1 true)
           (.num |(3 : ℚ) - 1| (true || true))),
         none) :=
  pair_emits_single_record_any_order
    [("id", .num 7 true), ("body", .num 3 true)]
    [("id", .num 7 true), ("prediction", .num 1 true)]
    7 3 1 true true true [] rfl rfl (by norm_num) rfl rfl rfl

/-- C2 (amended): the pending-entry invariant that survives every
invocation from every state satisfying it is: an entry holding both a
ground-truth and a prediction value holds a pair whose subtraction raises
`TypeError`; whenever the two halves are subtractable (numeric), the entry
is removed in the same invocation in which its second half arrives.  (The
unamended claim — no entry ever holds both halves — fails: see the
counterexample.) -/
theorem no_subtractable_complete_entry_preserved (rk : String) (parsed : ParseResult)
    (w : Bool) (data : DataState) (h : NoCompletePair data) :
    NoCompletePair (process_message rk parsed w data).1 := by
  rw [process_message_fst]
  cases parsed with
  | malformed => exact h
  | notObj => exact h
  | obj m =>
    unfold processCore
    dsimp only
    split
    · exact h
    · split
      · exact h
      · split
        · split
          case isTrue hh => exact checkComplete_insert_inv w _ data _ hh h
          case isFalse => exact h
        · split
          · split
            case isTrue hh => exact checkComplete_insert_inv w _ data _ hh h
            case isFalse => exact h
          · exact checkComplete_plain_inv w _ data h

/-- C2 witness: the invariant holds for the empty dict and is preserved by
one ground-truth message. -/
theorem no_subtractable_complete_entry_preserved_witness :
    NoCompletePair (process_message "y_true"
      (.obj [("id", .num 3 true), ("body", .num 1 true)]) true []).1 :=
  no_subtractable_complete_entry_preserved "y_true"
    (.obj [("id", .num 3 true), ("body", .num 1 true)]) true []
    (fun p hp => absurd hp (List.not_mem_nil p))

theorem mem_rowChars {x : Char} {m1 m2 m3 m4 : JVal} (h : x ∈ rowChars m1 m2 m3 m4) :
    x = ',' ∨ x ∈ pyStrChars m1 ∨ x ∈ pyStrChars m2 ∨ x ∈ pyStrChars m3 ∨
      x ∈ pyStrChars m4 := by
  simp only [rowChars, List.mem_append, List.mem_cons] at h
  tauto

theorem newline_not_mem_rowChars (a b c d : ℚ) (fa fb fc fd : Bool) :
    '\n' ∉ rowChars (.num a fa) (.num b fb) (.num c fc) (.num d fd) := by
  intro h
  rcases mem_rowChars h with h | h | h | h | h
  · exact absurd h (by decide)
  · exact newline_not_mem_pyNumReprChars a fa h
  · exact newline_not_mem_pyNumReprChars b fb h
  · exact newline_not_mem_pyNumReprChars c fc h
  · exact newline_not_mem_pyNumReprChars d fd h

theorem splitOnCharFn_rowChars (a b c d : ℚ) (fa fb fc fd : Bool) :
    splitOnCharFn ',' (rowChars (.num a fa) (.num b fb) (.num c fc) (.num d fd))
      = [pyNumReprChars a fa, pyNumReprChars b fb, pyNumReprChars c fc,
         pyNumReprChars d fd] := by
  unfold rowChars
  dsimp only [pyStrChars]
  rw [splitOnCharFn_append _ _ (comma_not_mem_pyNumReprChars a fa),
    splitOnCharFn_append _ _ (comma_not_mem_pyNumReprChars b fb),
    splitOnCharFn_append _ _ (comma_not_mem_pyNumReprChars c fc),
    splitOnCharFn_not_mem (comma_not_mem_pyNumReprChars d fd)]

theorem rowChars_ne_nil (m1 m2 m3 m4 : JVal) : rowChars m1 m2 m3 m4 ≠ [] := by
  unfold rowChars
  intro h
  rcases List.append_eq_nil.mp h with ⟨_, h2⟩
  exact List.cons_ne_nil _ _ h2

/-- C7: a log row written by the correlator for numeric values — rendered
in the `id,ground_truth,prediction,absolute_error` format with a trailing
newline — is read back by the visualizer's header-less CSV read as exactly
one four-column row, the fourth column parses back to precisely the
absolute error that was written (for values the decimal rendering
represents exactly), and reading an empty log raises `EmptyDataError`,
which the plotting loop catches instead of crashing. -/
theorem log_row_roundtrip_and_empty_log
    (i t p e : ℚ) (fi ft fp fe : Bool)
    (hef : fe = true → e.den ∣ 10 ^ 17) (hei : fe = false → e.den = 1) :
    pandasReadCsv (rowChars (.num i fi) (.num t ft) (.num p fp) (.num e fe) ++ ['\n'])
      = .ok [[pyNumReprChars i fi, pyNumReprChars t ft, pyNumReprChars p fp,
              pyNumReprChars e fe]]
    ∧ parseDecChars (pyNumReprChars e fe) = some e
    ∧ plotTick [] = (none, none) := by
  refine ⟨?_, parse_pyNumRepr e fe hef hei, rfl⟩
  have hnl := newline_not_mem_rowChars i t p e fi ft fp fe
  have hlines : splitOnCharFn '\n'
      (rowChars (.num i fi) (.num t ft) (.num p fp) (.num e fe) ++ ['\n'])
      = [rowChars (.num i fi) (.num t ft) (.num p fp) (.num e fe), []] := by
    have hx := splitOnCharFn_append
      (rowChars (.num i fi) (.num t ft) (.num p fp) (.num e fe)) [] hnl
    simpa using hx
  have hne : rowChars (.num i fi) (.num t ft) (.num p fp) (.num e fe) ≠ [] :=
    rowChars_ne_nil _ _ _ _
  have hb : (rowChars (.num i fi) (.num t ft) (.num p fp) (.num e fe)).isEmpty = false := by
    rw [← Bool.not_eq_true, List.isEmpty_iff]
    exact hne
  unfold pandasReadCsv
  rw [hlines]
  simp only [List.filter, hb, List.isEmpty_nil, Bool.not_false, Bool.not_true]
  simp only [List.isEmpty_cons, Bool.false_eq_true, if_false, List.map_cons, List.map_nil,
    splitOnCharFn_rowChars]

/-- C7 witness: the row for (id, gt, pred, err) = (2.0, 5.0, 7.0, 2.0). -/
theorem log_row_roundtrip_and_empty_log_witness :
    pandasReadCsv (rowChars (.num 2 true) (.num 5 true) (.num 7 true) (.num 2 true)
        ++ ['\n'])
      = .ok [[pyNumReprChars 2 true, pyNumReprChars 5 true, pyNumReprChars 7 true,
              pyNumReprChars 2 true]]
    ∧ parseDecChars (pyNumReprChars 2 true) = some 2
    ∧ plotTick [] = (none, none) :=
  log_row_roundtrip_and_empty_log 2 5 7 2 true true true true
    (fun _ => by norm_num) (fun hh => Bool.noConfusion hh)

/-- C8: one producer tick publishes exactly two durable messages — the
ground-truth scalar to `y_true` first, then the feature vector to
`features` — both tagged with the same id, and for the uniformly drawn
index `r` they carry exactly row `r` of the dataset. -/
theorem producer_tick_two_durable_messages
    (X : List (List ℚ)) (y : List ℚ) (mid : ℚ) (r : ℕ)
    (hr : r < X.length) (hy : y.length = X.length) :
    (producerTick X y mid r).length = 2 ∧
    (∀ pm ∈ producerTick X y mid r, pm.durable = true) ∧
    producerTick X y mid r
      = [ { routing_key := "y_true", durable := true,
            message := .obj [("id", .num mid true), ("body", .num (y[r]) true)] },
          { routing_key := "features", durable := true,
            message := .obj [("id", .num mid true),
              ("body", .arr ((X[r]).map (fun q => .num q true)))] } ] := by
  have hry : r < y.length := by omega
  refine ⟨rfl, ?_, ?_⟩
  · intro pm hpm
    simp only [producerTick, List.mem_cons, List.not_mem_nil, or_false] at hpm
    rcases hpm with h | h <;> subst h <;> rfl
  · unfold producerTick
    rw [List.getD_eq_getElem y 0 hry, List.getD_eq_getElem X [] hr]

/-- C8 witness: the tick for a one-row dataset. -/
theorem producer_tick_two_durable_messages_witness :
    (producerTick [[1, 2]] [5] 3 0).length = 2 ∧
    (∀ pm ∈ producerTick [[1, 2]] [5] 3 0, pm.durable = true) ∧
    producerTick [[1, 2]] [5] 3 0
      = [ { routing_key := "y_true", durable := true,
            message := .obj [("id", .num 3 true), ("body", .num 5 true)] },
          { routing_key := "features", durable := true,
            message := .obj [("id", .num 3 true),
              ("body", .arr [.num 1 true, .num 2 true])] } ] :=
  producer_tick_two_durable_messages [[1, 2]] [5] 3 0 (by decide) rfl

end MlDz
